import Mathlib

/-!
A model of the sesdev command-line front end (`sesdev.py`): the role-list
parser `_parse_roles`, the settings-derivation function `_gen_settings_dict`,
the `ses5` role augmentation, and the cluster-status aggregation `_status`
nested inside the `list` command.

Modelling conventions: a Python string is a `String` (comma-split fragments
are handled as `List Char`), Python `None` is `Option.none`, and a function
that can raise an uncaught Python exception returns `Option`, with `none`
standing for the exception.  Python's `str.strip()` removes Unicode
whitespace; only ASCII whitespace occurs in role texts, so `Char.isWhitespace`
is used.
-/

namespace Sesdev

/-- Whitespace test backing Python `str.strip()`. -/
def isWS (c : Char) : Bool := c.isWhitespace

/-- Python `s.strip()` on a character list: drop whitespace from both ends. -/
def strip (l : List Char) : List Char :=
  ((l.dropWhile isWS).reverse.dropWhile isWS).reverse

/-- Python `s.split(",")` on a character list.  `splitComma [] = [[]]`
(Python's `"".split(",") == ['']`), and every comma starts a new fragment. -/
def splitComma : List Char → List (List Char)
  | [] => [[]]
  | c :: cs =>
    if c = ',' then [] :: splitComma cs
    else
      match splitComma cs with
      | [] => [[c]]
      | f :: fs => (c :: f) :: fs

/-- In-place update of the `i`-th element of a list (Python list mutation). -/
def listModify (l : List α) (i : Nat) (f : α → α) : List α :=
  match l, i with
  | [], _ => []
  | a :: t, 0 => f a :: t
  | a :: t, Nat.succ j => a :: listModify t j f

/-- State of the `_parse_roles` loop.  In the Python source the `_node`
variable aliases list objects that may already be stored in `_roles`, and
appends mutate the shared object; so group objects live in `heap`, `rolesIdx`
holds the heap indices the `_roles` list refers to, and `node` is the heap
index `_node` refers to (`none` models `_node is None`). -/
structure PState where
  heap : List (List (List Char))
  rolesIdx : List Nat
  node : Option Nat

/-- One iteration of the `for r in roles` loop of `_parse_roles`.  The result
`none` models the uncaught `AttributeError` raised by `_node.append(...)` when
`_node is None`.  (The source strips each fragment twice, in the list
comprehension and at the top of the loop body; `strip` is idempotent so it is
applied once here.) -/
def parseStep (st : PState) (frag : List Char) : Option PState :=
  let r := strip frag
  if r.head? = some '[' then
    let i := st.heap.length
    if r.getLast? = some ']' then
      some { heap := st.heap ++ [[(r.dropLast).drop 1]],
             rolesIdx := st.rolesIdx ++ [i],
             node := some i }
    else
      some { heap := st.heap ++ [[r.drop 1]],
             rolesIdx := st.rolesIdx,
             node := some i }
  else if r.getLast? = some ']' then
    match st.node with
    | none => none
    | some i =>
      some { heap := listModify st.heap i (fun g => g ++ [r.dropLast]),
             rolesIdx := st.rolesIdx ++ [i],
             node := some i }
  else
    match st.node with
    | none => none
    | some i =>
      some { heap := listModify st.heap i (fun g => g ++ [r]),
             rolesIdx := st.rolesIdx,
             node := some i }

/-- The `for r in roles` loop of `_parse_roles`, run over all fragments. -/
def runFrags : PState → List (List Char) → Option PState
  | st, [] => some st
  | st, f :: fs =>
    match parseStep st f with
    | none => none
    | some st' => runFrags st' fs

/-- Python `_parse_roles(roles)` from `sesdev.py`: split the input on commas,
run the reconstruction loop, and return the contents of `_roles`.  A `none`
result models the uncaught `AttributeError` raised when a fragment that does
not open a bracket group is processed while `_node is None`. -/
def _parse_roles (s : String) : Option (List (List String)) :=
  (runFrags ⟨[], [], none⟩ (splitComma s.data)).map fun st =>
    st.rolesIdx.map fun i => (st.heap.getD i []).map String.mk

example : _parse_roles "[admin, mon, mgr],[storage, mon, mgr, mds]" =
    some [["admin", "mon", "mgr"], ["storage", "mon", "mgr", "mds"]] := by decide

example : _parse_roles "" = none := by decide

example : _parse_roles "[admin, mon" = some [] := by decide

example : _parse_roles "[ admin]" = some [[" admin"]] := by decide

example : _parse_roles "[admin ]" = some [["admin "]] := by decide

/-! Canonical renderer for role lists.  `renderSep pa pb` writes each node
group as `[` tokens `]` with tokens joined by the separator `pa ++ "," ++ pb`,
and joins the groups with the same separator; `render` is the canonical
unpadded form (separator exactly `","`). -/

/-- Join character-list pieces with a separator. -/
def joinSep (sep : List Char) : List (List Char) → List Char
  | [] => []
  | [p] => p
  | p :: ps => p ++ sep ++ joinSep sep ps

/-- Render one node group with a given token separator. -/
def renderGroupSep (sep : List Char) (g : List (List Char)) : List Char :=
  '[' :: joinSep sep g ++ [']']

/-- Render a role list, padding every comma with `pa` on the left and `pb` on
the right. -/
def renderSep (pa pb : List Char) (rl : List (List (List Char))) : List Char :=
  joinSep (pa ++ ',' :: pb) (rl.map (renderGroupSep (pa ++ ',' :: pb)))

/-- Canonical renderer on string role lists: groups bracketed, tokens and
groups separated by single commas. -/
def renderRoles (rl : List (List String)) : String :=
  String.mk (renderSep [] [] (rl.map (List.map String.data)))

/-- Text consisting of rendered complete groups followed by one bracket group
that is opened but never closed: `render gs ++ "," ++ "[" ++ u₁ "," u₂ ...`.
When `gs = []` the text is just the unterminated group. -/
def renderWithOpenTail (gs : List (List String)) (u : String) (us : List String) : String :=
  let tail := '[' :: joinSep [','] (u.data :: us.map String.data)
  match gs with
  | [] => String.mk tail
  | _ => String.mk (renderSep [] [] (gs.map (List.map String.data)) ++ ',' :: tail)

example : renderRoles [["admin", "mon"], ["storage"]] = "[admin,mon],[storage]" := by decide

example : renderWithOpenTail [["a", "b"]] "admin" ["mon"] = "[a,b],[admin,mon" := by decide

/-! The cluster-status aggregation `_status`, nested inside the `list`
command.  Per-node states are the strings reported by the deployment engine;
the running status can also take the two aggregate values. -/

/-- Per-node runtime state (`n.status` values compared against in `_status`). -/
inductive NodeState
  | not_deployed
  | running
  | stopped
  | suspended
deriving DecidableEq, Fintype

/-- Cluster-level status label: a node state, or one of the two aggregate
labels `_status` can produce. -/
inductive ClusterStatus
  | not_deployed
  | running
  | stopped
  | suspended
  | partially_deployed
  | partially_running
deriving DecidableEq, Fintype

/-- A node state read as the initial cluster status (`s = nodes['admin'].status`). -/
def NodeState.toStatus : NodeState → ClusterStatus
  | .not_deployed => .not_deployed
  | .running => .running
  | .stopped => .stopped
  | .suspended => .suspended

/-- The body of the `for n in nodes.values()` loop of `_status`: the
if/elif chain updating the running status `s` with one node's state. -/
def statusStep (s : ClusterStatus) (n : NodeState) : ClusterStatus :=
  if n = .running ∧ s = .not_deployed then .partially_deployed
  else if n = .stopped ∧ s = .running then .partially_running
  else if n = .suspended ∧ s = .running then .partially_running
  else if n = .running ∧ s = .stopped then .partially_running
  else if n = .running ∧ s = .suspended then .partially_running
  else s

/-- Python dict lookup `nodes['admin']` on the node mapping, modelled as an
association list in iteration order (dict keys are unique). -/
def dictLookup (k : String) : List (String × NodeState) → Option NodeState
  | [] => none
  | (k', v) :: rest => if k' = k then some v else dictLookup k rest

/-- Python `_status(nodes)` from the `list` command: start from the admin
node's state and fold the loop body over all node states in iteration order
(the admin node itself is visited too, as in `nodes.values()`).  A `none`
result models the `KeyError` when no `admin` node exists. -/
def _status (nodes : List (String × NodeState)) : Option ClusterStatus :=
  (dictLookup "admin" nodes).map fun a =>
    nodes.foldl (fun s p => statusStep s p.2) a.toStatus

example : _status [("admin", .running), ("node1", .running)] = some .running := by decide

example : _status [("admin", .not_deployed), ("node1", .running)] =
    some .partially_deployed := by decide

example : _status [("admin", .running), ("node1", .stopped)] =
    some .partially_running := by decide

/-! The settings-derivation function `_gen_settings_dict` and the extra role
augmentation performed by the `ses5` command.  The produced Python dict has a
fixed set of possible keys, so it is modelled as a record of `Option` fields,
`none` meaning the key is absent. -/

/-- Python truthiness of an optional string (`None` and `""` are falsy). -/
def truthyStr : Option String → Bool
  | none => false
  | some s => !(s == "")

/-- Python truthiness of an optional integer (`None` and `0` are falsy). -/
def truthyInt : Option Int → Bool
  | none => false
  | some n => !(n == 0)

/-- Python truthiness of an optional tuple of strings (`None` and the empty
tuple are falsy). -/
def truthyList : Option (List String) → Bool
  | none => false
  | some l => !l.isEmpty

/-- The dict built by `_gen_settings_dict`: each field models one possible
key, `none` meaning the key was not emitted. -/
structure SettingsDict where
  roles : Option (List (List String)) := none
  os : Option String := none
  num_disks : Option Int := none
  cpus : Option Int := none
  ram : Option Int := none
  disk_size : Option Int := none
  libvirt_host : Option String := none
  libvirt_user : Option String := none
  libvirt_storage_pool : Option String := none
  use_deepsea_cli : Option Bool := none
  stop_before_stage : Option Int := none
  deepsea_git_repo : Option String := none
  deepsea_git_branch : Option String := none
  version : Option String := none
  repos : Option (List String) := none
  vagrant_box : Option String := none
deriving DecidableEq

/-- The fixed role list installed by `--single-node`. -/
def singleNodeRoles : List (List String) :=
  [["admin", "storage", "mon", "mgr", "prometheus", "grafana", "mds",
    "igw", "rgw", "ganesha"]]

/-- The `roles` entry of the settings dict: the three-way branch at the top
of `_gen_settings_dict`.  The outer `Option` models the exception raised when
`_parse_roles` fails; the inner one models key absence. -/
def roles_field (roles : Option String) (single_node : Bool) :
    Option (Option (List (List String))) :=
  if !single_node && truthyStr roles then
    match _parse_roles (roles.getD "") with
    | none => none
    | some rl => some (some rl)
  else if single_node then some (some singleNodeRoles)
  else some none

/-- The `num_disks` entry: an explicit truthy value is floored at 3 under
single-node mode; an unset or falsy value yields 3 under single-node mode and
no key otherwise. -/
def num_disks_field (num_disks : Option Int) (single_node : Bool) : Option Int :=
  if truthyInt num_disks then
    some (if single_node ∧ num_disks.getD 0 < 3 then 3 else num_disks.getD 0)
  else if single_node then some 3
  else none

/-- Python `_gen_settings_dict` from `sesdev.py`, with parameters in source
order.  The result is `none` exactly when `_parse_roles` raises. -/
def _gen_settings_dict (version : Option String) (roles : Option String)
    (os : Option String) (num_disks : Option Int) (single_node : Bool)
    (libvirt_host libvirt_user libvirt_storage_pool : Option String)
    (deepsea_cli : Option Bool) (stop_before_deepsea_stage : Option Int)
    (deepsea_repo deepsea_branch : Option String) (repo : Option (List String))
    (cpus ram disk_size : Option Int) (vagrant_box : Option String) :
    Option SettingsDict :=
  match roles_field roles single_node with
  | none => none
  | some rf =>
    some { roles := rf
           os := if truthyStr os then os else none
           num_disks := num_disks_field num_disks single_node
           cpus := if truthyInt cpus then cpus else none
           ram := if truthyInt ram then ram else none
           disk_size := if truthyInt disk_size then disk_size else none
           libvirt_host := if truthyStr libvirt_host then libvirt_host else none
           libvirt_user := if truthyStr libvirt_user then libvirt_user else none
           libvirt_storage_pool :=
             if truthyStr libvirt_storage_pool then libvirt_storage_pool else none
           use_deepsea_cli := deepsea_cli
           stop_before_stage := stop_before_deepsea_stage
           deepsea_git_repo := if truthyStr deepsea_repo then deepsea_repo else none
           deepsea_git_branch := if truthyStr deepsea_branch then deepsea_branch else none
           version := version
           repos := if truthyList repo then repo else none
           vagrant_box := if truthyStr vagrant_box then vagrant_box else none }

/-- The dict produced by the `ses5` command before `_create_command`: derive
settings with version `"ses5"`, then, if a `roles` key is present, append
`"openattic"` to `settings_dict['roles'][0]`.  The result `none` also covers
the `IndexError` raised by `[0]` when the roles list is empty. -/
def ses5_settings_dict (roles : Option String) (os : Option String)
    (num_disks : Option Int) (single_node : Bool)
    (libvirt_host libvirt_user libvirt_storage_pool : Option String)
    (deepsea_cli : Option Bool) (stop_before_deepsea_stage : Option Int)
    (deepsea_repo deepsea_branch : Option String) (repo : Option (List String))
    (cpus ram disk_size : Option Int) (vagrant_box : Option String) :
    Option SettingsDict :=
  match _gen_settings_dict (some "ses5") roles os num_disks single_node
      libvirt_host libvirt_user libvirt_storage_pool deepsea_cli
      stop_before_deepsea_stage deepsea_repo deepsea_branch repo
      cpus ram disk_size vagrant_box with
  | none => none
  | some d =>
    match d.roles with
    | none => some d
    | some [] => none
    | some (g :: gs) => some { d with roles := some ((g ++ ["openattic"]) :: gs) }

example : _gen_settings_dict (some "ses6") none none none true none none none
    none none none none none none none none none =
    some { roles := some singleNodeRoles, num_disks := some 3,
           version := some "ses6" } := by decide

example : _gen_settings_dict (some "ses6") (some "[a, b],[c]") none (some 2) false
    none none none none none none none none none none none none =
    some { roles := some [["a", "b"], ["c"]], num_disks := some 2,
           version := some "ses6" } := by decide

example : ses5_settings_dict none none none true none none none
    none none none none none none none none none =
    some { roles := some [["admin", "storage", "mon", "mgr", "prometheus",
                           "grafana", "mds", "igw", "rgw", "ganesha", "openattic"]],
           num_disks := some 3, version := some "ses5" } := by decide

example : ses5_settings_dict (some "[a") none none false none none none
    none none none none none none none none none = none := by decide

/-- A well-behaved role token: non-empty, free of the three structural
characters, and carrying no leading or trailing whitespace. -/
def goodTok (t : List Char) : Bool :=
  !t.isEmpty && t.all (fun c => !(c == '[') && !(c == ']') && !(c == ',')) &&
  t.head?.all (fun a => !(isWS a)) && t.getLast?.all (fun b => !(isWS b))

/-- A well-behaved comma-split fragment: non-empty, comma-free, with no
whitespace at either end (so `strip` leaves it unchanged). -/
def goodFrag (l : List Char) : Prop :=
  l ≠ [] ∧ (∀ c ∈ l, c ≠ ',') ∧
  (∀ a, l.head? = some a → isWS a = false) ∧
  (∀ b, l.getLast? = some b → isWS b = false)

/-- The comma-split fragments contributed by a rendered group after its
opening fragment: bare tokens, the last one carrying the closing bracket. -/
def midFrags : List (List Char) → List (List Char)
  | [] => []
  | [t] => [t ++ [']']]
  | t :: ts => t :: midFrags ts

/-- The comma-split fragments of one rendered group. -/
def groupFrags : List (List Char) → List (List Char)
  | [] => []
  | [t] => [('[' :: t) ++ [']']]
  | t :: ts => ('[' :: t) :: midFrags ts

/-- All comma-split fragments of a rendered role list. -/
def fragsOf (rl : List (List (List Char))) : List (List Char) :=
  (rl.map groupFrags).flatten

/-- Consecutive indices `s, s+1, ...` of length `n`. -/
def idxRange : Nat → Nat → List Nat
  | _, 0 => []
  | s, Nat.succ n => s :: idxRange (s + 1) n

/-! Lemmas and claim theorems. -/

/-- A constructed string gives back its character list. -/
theorem String_data_mk (l : List Char) : (String.mk l).data = l := rfl

/-- Unfolding lemma: running the loop on no fragments. -/
theorem runFrags_nil (st : PState) : runFrags st [] = some st := rfl

/-- Unfolding lemma: running the loop on one more fragment. -/
theorem runFrags_cons (st : PState) (f : List Char) (fs : List (List Char)) :
    runFrags st (f :: fs) =
      match parseStep st f with
      | none => none
      | some st2 => runFrags st2 fs := rfl

/-- A whitespace character is not a comma. -/
theorem ws_ne_comma {c : Char} (h : isWS c = true) : c ≠ ',' := by
  intro hc
  subst hc
  exact absurd h (by decide)

/-- Dropping a predicate-satisfying prefix skips over a block that satisfies
it everywhere. -/
theorem dropWhile_append_of_all {p l : List Char} (h : ∀ c ∈ p, isWS c = true) :
    (p ++ l).dropWhile isWS = l.dropWhile isWS := by
  induction p with
  | nil => rfl
  | cons c cs ih =>
    rw [List.cons_append, List.dropWhile_cons, if_pos (h c (List.mem_cons_self c cs))]
    exact ih (fun d hd => h d (List.mem_cons_of_mem c hd))

/-- A list whose head does not satisfy the predicate is unchanged by
`dropWhile`. -/
theorem dropWhile_eq_self_of_head {l : List Char}
    (h : ∀ a, l.head? = some a → isWS a = false) : l.dropWhile isWS = l := by
  cases l with
  | nil => rfl
  | cons c cs =>
    rw [List.dropWhile_cons, if_neg]
    simp [h c rfl]

/-- Stripping removes exactly the whitespace padding around a block whose own
ends are not whitespace. -/
theorem strip_pad {p q l : List Char} (hp : ∀ c ∈ p, isWS c = true)
    (hq : ∀ c ∈ q, isWS c = true) (hl : l ≠ [])
    (hh : ∀ a, l.head? = some a → isWS a = false)
    (hg : ∀ b, l.getLast? = some b → isWS b = false) :
    strip (p ++ l ++ q) = l := by
  have h1 : (p ++ l ++ q).dropWhile isWS = l ++ q := by
    rw [List.append_assoc, dropWhile_append_of_all hp]
    apply dropWhile_eq_self_of_head
    intro a ha
    apply hh
    cases l with
    | nil => exact absurd rfl hl
    | cons c cs => simpa using ha
  have h2 : (l ++ q).reverse.dropWhile isWS = l.reverse := by
    rw [List.reverse_append,
        dropWhile_append_of_all (fun c hc => hq c (List.mem_reverse.mp hc))]
    apply dropWhile_eq_self_of_head
    intro b hb
    exact hg b (by rwa [List.head?_reverse] at hb)
  unfold strip
  rw [h1, h2, List.reverse_reverse]

/-- Strip is the identity on a fragment whose ends are not whitespace. -/
theorem strip_id {l : List Char} (hl : l ≠ [])
    (hh : ∀ a, l.head? = some a → isWS a = false)
    (hg : ∀ b, l.getLast? = some b → isWS b = false) : strip l = l := by
  have := @strip_pad [] [] l (by simp) (by simp) hl hh hg
  simpa using this

/-- Prepending whitespace does not change the strip. -/
theorem strip_ws_prepend {w : List Char} (l : List Char)
    (hw : ∀ c ∈ w, isWS c = true) : strip (w ++ l) = strip l := by
  unfold strip
  rw [dropWhile_append_of_all hw]

/-- A good fragment is unchanged by strip. -/
theorem strip_goodFrag {l : List Char} (h : goodFrag l) : strip l = l :=
  strip_id h.1 h.2.2.1 h.2.2.2

/-- Appending trailing whitespace to a good fragment strips back to it. -/
theorem strip_ws_append {l q : List Char} (hq : ∀ c ∈ q, isWS c = true)
    (hl : goodFrag l) : strip (l ++ q) = l := by
  have := @strip_pad [] q l (by simp) hq hl.1 hl.2.2.1 hl.2.2.2
  simpa using this

/-- Unfolding lemma for `splitComma` on a non-empty list. -/
theorem splitComma_cons (c : Char) (cs : List Char) :
    splitComma (c :: cs) =
      if c = ',' then [] :: splitComma cs
      else match splitComma cs with
        | [] => [[c]]
        | f :: fs => (c :: f) :: fs := rfl

/-- Splitting never produces an empty fragment list. -/
theorem splitComma_ne_nil (l : List Char) : splitComma l ≠ [] := by
  cases l with
  | nil => simp [splitComma]
  | cons c cs =>
    rw [splitComma_cons]
    by_cases h : c = ','
    · simp [h]
    · rw [if_neg h]
      rcases hs : splitComma cs with _ | ⟨f, fs⟩ <;> simp

/-- Splitting a non-comma cons extends the first fragment. -/
theorem splitComma_cons_ne (c : Char) (h : c ≠ ',') (cs : List Char)
    (f : List Char) (fs : List (List Char)) (hs : splitComma cs = f :: fs) :
    splitComma (c :: cs) = (c :: f) :: fs := by
  rw [splitComma_cons, if_neg h, hs]

/-- Splitting distributes over a comma. -/
theorem splitComma_append (xs ys : List Char) :
    splitComma (xs ++ ',' :: ys) = splitComma xs ++ splitComma ys := by
  induction xs with
  | nil => simp [splitComma_cons, splitComma]
  | cons c cs ih =>
    rcases hs : splitComma cs with _ | ⟨f, fs⟩
    · exact absurd hs (splitComma_ne_nil cs)
    · by_cases h : c = ','
      · subst h
        rw [List.cons_append, splitComma_cons, if_pos rfl, splitComma_cons,
            if_pos rfl, ih]
        simp
      · have h1 : splitComma (cs ++ ',' :: ys) = f :: (fs ++ splitComma ys) := by
          rw [ih, hs]
          rfl
        rw [List.cons_append, splitComma_cons_ne c h _ _ _ h1,
            splitComma_cons_ne c h _ _ _ hs]
        rfl

/-- A comma-free list is a single fragment. -/
theorem splitComma_no_comma {l : List Char} (h : ∀ c ∈ l, c ≠ ',') :
    splitComma l = [l] := by
  induction l with
  | nil => rfl
  | cons c cs ih =>
    have h2 := ih (fun d hd => h d (List.mem_cons_of_mem c hd))
    rw [splitComma_cons_ne c (h c (List.mem_cons_self c cs)) cs cs [] h2]

/-- A comma-free prefix joins the first fragment of the split. -/
theorem splitComma_prepend {w : List Char} (hw : ∀ c ∈ w, c ≠ ',')
    {l f : List Char} {fs : List (List Char)} (hl : splitComma l = f :: fs) :
    splitComma (w ++ l) = (w ++ f) :: fs := by
  induction w with
  | nil => simpa using hl
  | cons c cs ih =>
    have h1 := ih (fun d hd => hw d (List.mem_cons_of_mem c hd))
    rw [List.cons_append, splitComma_cons_ne c (hw c (List.mem_cons_self c cs)) _ _ _ h1]
    rfl

/-- The head of a list is a member. -/
theorem mem_of_head?_eq {α : Type} {l : List α} {a : α} (h : l.head? = some a) :
    a ∈ l := by
  cases l with
  | nil => simp at h
  | cons x xs =>
    rw [show (x :: xs).head? = some x from rfl] at h
    cases h
    exact List.mem_cons_self _ _

/-- The last element of a list is a member. -/
theorem mem_of_getLast?_eq {α : Type} {l : List α} {b : α} (h : l.getLast? = some b) :
    b ∈ l := by
  induction l with
  | nil => simp at h
  | cons x xs ih =>
    cases xs with
    | nil =>
      rw [show [x].getLast? = some x from rfl] at h
      cases h
      exact List.mem_cons_self _ _
    | cons y ys =>
      rw [List.getLast?_cons_cons] at h
      exact List.mem_cons_of_mem x (ih h)

/-- The last element of a cons with non-empty tail is the tail's last. -/
theorem getLast?_cons_of_ne_nil {α : Type} (a : α) {t : List α} (h : t ≠ []) :
    (a :: t).getLast? = t.getLast? := by
  cases t with
  | nil => exact absurd rfl h
  | cons b bs => rw [List.getLast?_cons_cons]

/-- The head of an append with non-empty left part is the left part's head. -/
theorem head?_append_of_ne_nil {α : Type} {t : List α} (q : List α) (h : t ≠ []) :
    (t ++ q).head? = t.head? := by
  cases t with
  | nil => exact absurd rfl h
  | cons c cs => rfl

/-- A good token is non-empty. -/
theorem goodTok_ne_nil {t : List Char} (h : goodTok t = true) : t ≠ [] := by
  intro he
  subst he
  exact absurd h (by decide)

/-- A good token contains no structural character. -/
theorem goodTok_no_special {t : List Char} (h : goodTok t = true) :
    ∀ c ∈ t, c ≠ '[' ∧ c ≠ ']' ∧ c ≠ ',' := by
  intro c hc
  unfold goodTok at h
  simp only [Bool.and_eq_true, List.all_eq_true] at h
  have h2 := h.1.1.2 c hc
  simp only [Bool.and_eq_true, Bool.not_eq_true', beq_eq_false_iff_ne, ne_eq] at h2
  exact ⟨h2.1.1, h2.1.2, h2.2⟩

/-- A good token does not start with whitespace. -/
theorem goodTok_head {t : List Char} (h : goodTok t = true) :
    ∀ a, t.head? = some a → isWS a = false := by
  intro a ha
  unfold goodTok at h
  simp only [Bool.and_eq_true] at h
  have h2 := h.1.2
  rw [ha] at h2
  simpa [Option.all] using h2

/-- A good token does not end with whitespace. -/
theorem goodTok_last {t : List Char} (h : goodTok t = true) :
    ∀ b, t.getLast? = some b → isWS b = false := by
  intro b hb
  unfold goodTok at h
  simp only [Bool.and_eq_true] at h
  have h2 := h.2
  rw [hb] at h2
  simpa [Option.all] using h2

/-- A bare good token is a good fragment. -/
theorem goodFrag_plain {t : List Char} (h : goodTok t = true) : goodFrag t :=
  ⟨goodTok_ne_nil h, fun c hc => (goodTok_no_special h c hc).2.2,
   goodTok_head h, goodTok_last h⟩

/-- An opening fragment `[t` is a good fragment. -/
theorem goodFrag_open {t : List Char} (h : goodTok t = true) :
    goodFrag ('[' :: t) := by
  refine ⟨by simp, ?_, ?_, ?_⟩
  · intro c hc
    rcases List.mem_cons.mp hc with rfl | hc2
    · decide
    · exact (goodTok_no_special h c hc2).2.2
  · intro a ha
    cases ha
    decide
  · intro b hb
    rw [getLast?_cons_of_ne_nil '[' (goodTok_ne_nil h)] at hb
    exact goodTok_last h b hb

/-- A closing fragment `t]` is a good fragment. -/
theorem goodFrag_close {t : List Char} (h : goodTok t = true) :
    goodFrag (t ++ [']']) := by
  refine ⟨by simp, ?_, ?_, ?_⟩
  · intro c hc
    rcases List.mem_append.mp hc with hc2 | hc2
    · exact (goodTok_no_special h c hc2).2.2
    · rw [List.mem_singleton] at hc2
      subst hc2
      decide
  · intro a ha
    rw [head?_append_of_ne_nil _ (goodTok_ne_nil h)] at ha
    exact goodTok_head h a ha
  · intro b hb
    rw [List.getLast?_concat] at hb
    cases hb
    decide

/-- A single-token group fragment `[t]` is a good fragment. -/
theorem goodFrag_single {t : List Char} (h : goodTok t = true) :
    goodFrag (('[' :: t) ++ [']']) := by
  refine ⟨by simp, ?_, ?_, ?_⟩
  · intro c hc
    rcases List.mem_append.mp hc with hc2 | hc2
    · rcases List.mem_cons.mp hc2 with rfl | hc3
      · decide
      · exact (goodTok_no_special h c hc3).2.2
    · rw [List.mem_singleton] at hc2
      subst hc2
      decide
  · intro a ha
    rw [head?_append_of_ne_nil _ (by simp)] at ha
    cases ha
    decide
  · intro b hb
    rw [List.getLast?_concat] at hb
    cases hb
    decide

/-- Joining onto a non-empty rest inserts the separator. -/
theorem joinSep_cons_of_ne_nil (sep p : List Char) {ps : List (List Char)}
    (h : ps ≠ []) : joinSep sep (p :: ps) = p ++ sep ++ joinSep sep ps := by
  cases ps with
  | nil => exact absurd rfl h
  | cons q qs => rfl

/-- The middle fragments of a non-empty token list are non-empty. -/
theorem midFrags_ne_nil {ts : List (List Char)} (h : ts ≠ []) : midFrags ts ≠ [] := by
  cases ts with
  | nil => exact absurd rfl h
  | cons t ts2 => cases ts2 <;> simp [midFrags]

/-- The fragments of a non-empty group are non-empty. -/
theorem groupFrags_ne_nil {g : List (List Char)} (h : g ≠ []) : groupFrags g ≠ [] := by
  cases g with
  | nil => exact absurd rfl h
  | cons t ts => cases ts <;> simp [groupFrags]

/-- Joining the middle fragments restores the tail of a group's render. -/
theorem joinSep_midFrags (sep : List Char) :
    ∀ ts : List (List Char), ts ≠ [] →
      joinSep sep (midFrags ts) = joinSep sep ts ++ [']'] := by
  intro ts
  induction ts with
  | nil => intro h; exact absurd rfl h
  | cons t ts2 ih =>
    intro _
    cases ts2 with
    | nil => rfl
    | cons t2 ts3 =>
      have ihh := ih (List.cons_ne_nil t2 ts3)
      rw [show midFrags (t :: t2 :: ts3) = t :: midFrags (t2 :: ts3) from rfl,
          joinSep_cons_of_ne_nil sep t (midFrags_ne_nil (List.cons_ne_nil t2 ts3)),
          ihh, joinSep_cons_of_ne_nil sep t (List.cons_ne_nil t2 ts3)]
      simp [List.append_assoc]

/-- Joining a group's fragments restores its render. -/
theorem joinSep_groupFrags (sep : List Char) (g : List (List Char)) (hg : g ≠ []) :
    joinSep sep (groupFrags g) = renderGroupSep sep g := by
  cases g with
  | nil => exact absurd rfl hg
  | cons t ts =>
    cases ts with
    | nil => rfl
    | cons t2 ts2 =>
      rw [show groupFrags (t :: t2 :: ts2) = ('[' :: t) :: midFrags (t2 :: ts2) from rfl,
          joinSep_cons_of_ne_nil sep _ (midFrags_ne_nil (List.cons_ne_nil t2 ts2)),
          joinSep_midFrags sep _ (List.cons_ne_nil t2 ts2)]
      unfold renderGroupSep
      rw [joinSep_cons_of_ne_nil sep _ (List.cons_ne_nil t2 ts2)]
      simp [List.append_assoc]

/-- Joining distributes over appending two non-empty fragment lists. -/
theorem joinSep_append_of_ne_nil (sep : List Char) {as bs : List (List Char)}
    (ha : as ≠ []) (hb : bs ≠ []) :
    joinSep sep (as ++ bs) = joinSep sep as ++ sep ++ joinSep sep bs := by
  induction as with
  | nil => exact absurd rfl ha
  | cons a as2 ih =>
    cases as2 with
    | nil =>
      rw [List.cons_append, List.nil_append, joinSep_cons_of_ne_nil sep a hb]
      rfl
    | cons a2 as3 =>
      rw [List.cons_append, joinSep_cons_of_ne_nil sep a (by simp),
          ih (List.cons_ne_nil a2 as3),
          joinSep_cons_of_ne_nil sep a (List.cons_ne_nil a2 as3)]
      simp [List.append_assoc]

/-- Unfolding lemma for the fragments of a cons. -/
theorem fragsOf_cons (g : List (List Char)) (rest : List (List (List Char))) :
    fragsOf (g :: rest) = groupFrags g ++ fragsOf rest := by
  unfold fragsOf
  rw [List.map_cons, List.flatten_cons]

/-- The fragments of a non-empty role list with non-empty groups are
non-empty. -/
theorem fragsOf_ne_nil {rl : List (List (List Char))} (h0 : rl ≠ [])
    (h1 : ∀ g ∈ rl, g ≠ []) : fragsOf rl ≠ [] := by
  cases rl with
  | nil => exact absurd rfl h0
  | cons g rest =>
    rw [fragsOf_cons]
    intro hc
    exact groupFrags_ne_nil (h1 g (List.mem_cons_self g rest))
      (List.append_eq_nil.mp hc).1

/-- The padded render of a role list is its fragments joined by the padded
separator. -/
theorem renderSep_eq_joinSep_fragsOf (pa pb : List Char) :
    ∀ rl : List (List (List Char)), rl ≠ [] → (∀ g ∈ rl, g ≠ []) →
      renderSep pa pb rl = joinSep (pa ++ ',' :: pb) (fragsOf rl) := by
  intro rl
  induction rl with
  | nil => intro h; exact absurd rfl h
  | cons g rest ih =>
    intro _ h1
    cases rest with
    | nil =>
      show renderGroupSep _ g = _
      rw [fragsOf_cons]
      simp only [fragsOf, List.map_nil, List.flatten_nil, List.append_nil]
      rw [joinSep_groupFrags _ g (h1 g (List.mem_cons_self g []))]
    | cons g2 rest2 =>
      have hrest : ∀ g' ∈ g2 :: rest2, g' ≠ [] :=
        fun g' hg' => h1 g' (List.mem_cons_of_mem g hg')
      have ihh := ih (List.cons_ne_nil g2 rest2) hrest
      unfold renderSep at ihh ⊢
      rw [List.map_cons, joinSep_cons_of_ne_nil _ _ (by simp), fragsOf_cons,
          joinSep_append_of_ne_nil _ (groupFrags_ne_nil (h1 g (by simp)))
            (fragsOf_ne_nil (List.cons_ne_nil g2 rest2) hrest),
          joinSep_groupFrags _ g (h1 g (by simp)), ← ihh]

/-- Fragments of a token list's middles are good. -/
theorem midFrags_good {ts : List (List Char)} (h : ∀ t ∈ ts, goodTok t = true) :
    ∀ f ∈ midFrags ts, goodFrag f := by
  induction ts with
  | nil => intro f hf; simp [midFrags] at hf
  | cons t ts2 ih =>
    intro f hf
    cases ts2 with
    | nil =>
      simp only [midFrags, List.mem_singleton] at hf
      subst hf
      exact goodFrag_close (h t (List.mem_cons_self t []))
    | cons t2 ts3 =>
      rw [show midFrags (t :: t2 :: ts3) = t :: midFrags (t2 :: ts3) from rfl] at hf
      rcases List.mem_cons.mp hf with rfl | hf2
      · exact goodFrag_plain (h f (List.mem_cons_self f (t2 :: ts3)))
      · exact ih (fun u hu => h u (List.mem_cons_of_mem t hu)) f hf2

/-- Fragments of a good group are good. -/
theorem groupFrags_good {g : List (List Char)} (h : ∀ t ∈ g, goodTok t = true) :
    ∀ f ∈ groupFrags g, goodFrag f := by
  cases g with
  | nil => intro f hf; simp [groupFrags] at hf
  | cons t ts =>
    intro f hf
    cases ts with
    | nil =>
      simp only [groupFrags, List.mem_singleton] at hf
      subst hf
      exact goodFrag_single (h t (List.mem_cons_self t []))
    | cons t2 ts2 =>
      rw [show groupFrags (t :: t2 :: ts2) = ('[' :: t) :: midFrags (t2 :: ts2)
        from rfl] at hf
      rcases List.mem_cons.mp hf with rfl | hf2
      · exact goodFrag_open (h t (List.mem_cons_self t (t2 :: ts2)))
      · exact midFrags_good (fun u hu => h u (List.mem_cons_of_mem t hu)) f hf2

/-- All fragments of a role list with good tokens are good. -/
theorem fragsOf_good {rl : List (List (List Char))}
    (h : ∀ g ∈ rl, ∀ t ∈ g, goodTok t = true) :
    ∀ f ∈ fragsOf rl, goodFrag f := by
  intro f hf
  unfold fragsOf at hf
  rw [List.mem_flatten] at hf
  obtain ⟨m, hm, hfm⟩ := hf
  rw [List.mem_map] at hm
  obtain ⟨g, hg, rfl⟩ := hm
  exact groupFrags_good (h g hg) f hfm

/-- Stripping a list of good fragments changes nothing. -/
theorem map_strip_of_goodFrag {ps : List (List Char)} (h : ∀ p ∈ ps, goodFrag p) :
    ps.map strip = ps := by
  induction ps with
  | nil => rfl
  | cons p ps2 ih =>
    rw [List.map_cons, strip_goodFrag (h p (List.mem_cons_self p ps2)),
        ih (fun q hq => h q (List.mem_cons_of_mem p hq))]

/-- Key splitting lemma: splitting the whitespace-padded join of good
fragments and stripping each piece recovers exactly the fragments. -/
theorem map_strip_splitComma_joinSep {pa pb : List Char}
    (hpa : ∀ c ∈ pa, isWS c = true) (hpb : ∀ c ∈ pb, isWS c = true) :
    ∀ ps : List (List Char), ps ≠ [] → (∀ p ∈ ps, goodFrag p) →
      (splitComma (joinSep (pa ++ ',' :: pb) ps)).map strip = ps := by
  intro ps
  induction ps with
  | nil => intro h; exact absurd rfl h
  | cons p ps2 ih =>
    intro _ hgood
    cases ps2 with
    | nil =>
      show (splitComma p).map strip = [p]
      have hg := hgood p (List.mem_cons_self p [])
      rw [splitComma_no_comma hg.2.1]
      simp [strip_goodFrag hg]
    | cons q ps3 =>
      have hg := hgood p (List.mem_cons_self p (q :: ps3))
      have hrest : ∀ r ∈ q :: ps3, goodFrag r :=
        fun r hr => hgood r (List.mem_cons_of_mem p hr)
      have ihh := ih (List.cons_ne_nil q ps3) hrest
      have hj : joinSep (pa ++ ',' :: pb) (p :: q :: ps3) =
          (p ++ pa) ++ ',' :: (pb ++ joinSep (pa ++ ',' :: pb) (q :: ps3)) := by
        rw [joinSep_cons_of_ne_nil _ _ (List.cons_ne_nil q ps3)]
        simp [List.append_assoc]
      rw [hj, splitComma_append]
      have h1 : splitComma (p ++ pa) = [p ++ pa] := by
        apply splitComma_no_comma
        intro c hc
        rcases List.mem_append.mp hc with hc2 | hc2
        · exact hg.2.1 c hc2
        · exact ws_ne_comma (hpa c hc2)
      rcases hsp : splitComma (joinSep (pa ++ ',' :: pb) (q :: ps3)) with _ | ⟨f, fs⟩
      · exact absurd hsp (splitComma_ne_nil _)
      · have h2 : splitComma (pb ++ joinSep (pa ++ ',' :: pb) (q :: ps3)) =
            (pb ++ f) :: fs :=
          splitComma_prepend (fun c hc => ws_ne_comma (hpb c hc)) hsp
        rw [h1, h2, List.singleton_append, List.map_cons, List.map_cons,
            strip_ws_append hpa hg, strip_ws_prepend f hpb]
        rw [hsp, List.map_cons] at ihh
        rw [← ihh]

/-- Modifying just past a prefix rewrites the appended head element. -/
theorem listModify_append_length {α : Type} (h : List α) (a : α) (f : α → α)
    (t : List α) : listModify (h ++ a :: t) h.length f = h ++ f a :: t := by
  induction h with
  | nil => rfl
  | cons x xs ih => simp [listModify, ih]

/-- The loop step only looks at the stripped fragment. -/
theorem parseStep_congr {f f2 : List Char} (h : strip f = strip f2) (st : PState) :
    parseStep st f = parseStep st f2 := by
  unfold parseStep
  rw [h]

/-- The loop treats two fragment lists with the same strips identically. -/
theorem runFrags_congr {fs fs2 : List (List Char)} (h : fs.map strip = fs2.map strip) :
    ∀ st, runFrags st fs = runFrags st fs2 := by
  induction fs generalizing fs2 with
  | nil =>
    intro st
    cases fs2 with
    | nil => rfl
    | cons f2 r2 => simp at h
  | cons f r ih =>
    intro st
    cases fs2 with
    | nil => simp at h
    | cons f2 r2 =>
      rw [List.map_cons, List.map_cons] at h
      injection h with h1 hrest
      rw [runFrags_cons, runFrags_cons, parseStep_congr h1 st]
      cases parseStep st f2 with
      | none => rfl
      | some st2 => exact ih hrest st2

/-- Running the loop over appended fragment lists runs them in sequence. -/
theorem runFrags_append (st : PState) (fs1 fs2 : List (List Char)) :
    runFrags st (fs1 ++ fs2) =
      match runFrags st fs1 with
      | none => none
      | some st2 => runFrags st2 fs2 := by
  induction fs1 generalizing st with
  | nil => rfl
  | cons f fs ih =>
    rw [List.cons_append, runFrags_cons, runFrags_cons]
    cases parseStep st f with
    | none => rfl
    | some st2 => exact ih st2

/-- Effect of one loop step on an opening fragment `[t`. -/
theorem parseStep_open {t : List Char} (h : goodTok t = true)
    (H : List (List (List Char))) (I : List Nat) (n : Option Nat) :
    parseStep ⟨H, I, n⟩ ('[' :: t) = some ⟨H ++ [[t]], I, some H.length⟩ := by
  have hstrip : strip ('[' :: t) = '[' :: t := strip_goodFrag (goodFrag_open h)
  have hlast : ('[' :: t).getLast? ≠ some ']' := by
    rw [getLast?_cons_of_ne_nil '[' (goodTok_ne_nil h)]
    intro hc
    exact (goodTok_no_special h ']' (mem_of_getLast?_eq hc)).2.1 rfl
  unfold parseStep
  rw [hstrip, if_pos (show ('[' :: t).head? = some '[' from rfl), if_neg hlast]
  rfl

/-- Effect of one loop step on a bare token fragment while a group is open. -/
theorem parseStep_plain {t : List Char} (h : goodTok t = true)
    (H : List (List (List Char))) (I : List Nat) (i : Nat) :
    parseStep ⟨H, I, some i⟩ t =
      some ⟨listModify H i (fun g => g ++ [t]), I, some i⟩ := by
  have hstrip : strip t = t := strip_goodFrag (goodFrag_plain h)
  have hhead : t.head? ≠ some '[' := by
    intro hc
    exact (goodTok_no_special h '[' (mem_of_head?_eq hc)).1 rfl
  have hlast : t.getLast? ≠ some ']' := by
    intro hc
    exact (goodTok_no_special h ']' (mem_of_getLast?_eq hc)).2.1 rfl
  unfold parseStep
  rw [hstrip, if_neg hhead, if_neg hlast]

/-- Effect of one loop step on a closing fragment `t]` while a group is open. -/
theorem parseStep_close {t : List Char} (h : goodTok t = true)
    (H : List (List (List Char))) (I : List Nat) (i : Nat) :
    parseStep ⟨H, I, some i⟩ (t ++ [']']) =
      some ⟨listModify H i (fun g => g ++ [t]), I ++ [i], some i⟩ := by
  have hstrip : strip (t ++ [']']) = t ++ [']'] := strip_goodFrag (goodFrag_close h)
  have hhead : (t ++ [']']).head? ≠ some '[' := by
    rw [head?_append_of_ne_nil _ (goodTok_ne_nil h)]
    intro hc
    exact (goodTok_no_special h '[' (mem_of_head?_eq hc)).1 rfl
  unfold parseStep
  rw [hstrip, if_neg hhead, if_pos (List.getLast?_concat t), List.dropLast_concat]

/-- Effect of one loop step on a complete single-token group `[t]`. -/
theorem parseStep_single {t : List Char} (h : goodTok t = true)
    (H : List (List (List Char))) (I : List Nat) (n : Option Nat) :
    parseStep ⟨H, I, n⟩ (('[' :: t) ++ [']']) =
      some ⟨H ++ [[t]], I ++ [H.length], some H.length⟩ := by
  have hstrip : strip (('[' :: t) ++ [']']) = ('[' :: t) ++ [']'] :=
    strip_goodFrag (goodFrag_single h)
  unfold parseStep
  rw [hstrip, if_pos (show (('[' :: t) ++ [']']).head? = some '[' from rfl),
      if_pos (List.getLast?_concat ('[' :: t)), List.dropLast_concat]
  rfl

/-- Running the middle fragments of a group extends the open group in place
and records it once on close. -/
theorem runFrags_midFrags :
    ∀ ts : List (List Char), ts ≠ [] → (∀ t ∈ ts, goodTok t = true) →
    ∀ (H : List (List (List Char))) (pre : List (List Char)) (I : List Nat),
      runFrags ⟨H ++ [pre], I, some H.length⟩ (midFrags ts) =
        some ⟨H ++ [pre ++ ts], I ++ [H.length], some H.length⟩ := by
  intro ts
  induction ts with
  | nil => intro h; exact absurd rfl h
  | cons t ts2 ih =>
    intro _ hgood H pre I
    cases ts2 with
    | nil =>
      rw [show midFrags [t] = [t ++ [']']] from rfl, runFrags_cons,
          parseStep_close (hgood t (List.mem_cons_self t [])) (H ++ [pre]) I H.length]
      rw [listModify_append_length]
      rfl
    | cons t2 ts3 =>
      rw [show midFrags (t :: t2 :: ts3) = t :: midFrags (t2 :: ts3) from rfl,
          runFrags_cons,
          parseStep_plain (hgood t (List.mem_cons_self t (t2 :: ts3))) (H ++ [pre]) I H.length,
          listModify_append_length]
      show runFrags ⟨H ++ [pre ++ [t]], I, some H.length⟩ (midFrags (t2 :: ts3)) = _
      rw [ih (List.cons_ne_nil t2 ts3)
          (fun u hu => hgood u (List.mem_cons_of_mem t hu)) H (pre ++ [t]) I]
      simp [List.append_assoc]

/-- Running a whole group's fragments appends the group and its index. -/
theorem runFrags_groupFrags {g : List (List Char)} (hg : g ≠ [])
    (hgood : ∀ t ∈ g, goodTok t = true) (H : List (List (List Char)))
    (I : List Nat) (n : Option Nat) :
    runFrags ⟨H, I, n⟩ (groupFrags g) =
      some ⟨H ++ [g], I ++ [H.length], some H.length⟩ := by
  cases g with
  | nil => exact absurd rfl hg
  | cons t ts =>
    cases ts with
    | nil =>
      rw [show groupFrags [t] = [('[' :: t) ++ [']']] from rfl, runFrags_cons,
          parseStep_single (hgood t (List.mem_cons_self t [])) H I n]
      rfl
    | cons t2 ts2 =>
      rw [show groupFrags (t :: t2 :: ts2) = ('[' :: t) :: midFrags (t2 :: ts2)
        from rfl, runFrags_cons,
          parseStep_open (hgood t (List.mem_cons_self t (t2 :: ts2))) H I n]
      show runFrags ⟨H ++ [[t]], I, some H.length⟩ (midFrags (t2 :: ts2)) = _
      rw [runFrags_midFrags (t2 :: ts2) (List.cons_ne_nil t2 ts2)
          (fun u hu => hgood u (List.mem_cons_of_mem t hu)) H [t] I]
      rfl

/-- Indexing just past a prefix reads the appended head element. -/
theorem getD_append_cons {α : Type} (H : List α) (a : α) (t : List α) (d : α) :
    (H ++ a :: t).getD H.length d = a := by
  induction H with
  | nil => rfl
  | cons x xs ih => simpa using ih

/-- Reading consecutive indices out of the middle section of a list recovers
that section. -/
theorem map_getD_idxRange {α : Type} (d : α) :
    ∀ (gs H t : List α),
      (idxRange H.length gs.length).map (fun i => (H ++ (gs ++ t)).getD i d) = gs := by
  intro gs
  induction gs with
  | nil => intro H t; rfl
  | cons g gs2 ih =>
    intro H t
    rw [show (g :: gs2).length = gs2.length + 1 from rfl,
        show idxRange H.length (gs2.length + 1) =
          H.length :: idxRange (H.length + 1) gs2.length from rfl,
        List.map_cons]
    congr 1
    · exact getD_append_cons H g (gs2 ++ t) d
    · simpa [List.append_assoc] using ih (H ++ [g]) t

/-- Running the fragments of a whole rendered role list appends all groups
and their consecutive indices. -/
theorem runFrags_fragsOf :
    ∀ gs : List (List (List Char)), (∀ g ∈ gs, g ≠ []) →
      (∀ g ∈ gs, ∀ t ∈ g, goodTok t = true) →
      ∀ (H : List (List (List Char))) (I : List Nat) (n : Option Nat),
        ∃ n2, runFrags ⟨H, I, n⟩ (fragsOf gs) =
          some ⟨H ++ gs, I ++ idxRange H.length gs.length, n2⟩ := by
  intro gs
  induction gs with
  | nil =>
    intro _ _ H I n
    exact ⟨n, by simp [fragsOf, idxRange, runFrags_nil]⟩
  | cons g gs2 ih =>
    intro hne hgood H I n
    rw [fragsOf_cons, runFrags_append,
        runFrags_groupFrags (hne g (List.mem_cons_self g gs2))
          (hgood g (List.mem_cons_self g gs2)) H I n]
    obtain ⟨n2, h2⟩ := ih (fun g' hg' => hne g' (List.mem_cons_of_mem g hg'))
      (fun g' hg' => hgood g' (List.mem_cons_of_mem g hg'))
      (H ++ [g]) (I ++ [H.length]) (some H.length)
    refine ⟨n2, ?_⟩
    show runFrags ⟨H ++ [g], I ++ [H.length], some H.length⟩ (fragsOf gs2) = _
    rw [h2]
    simp [List.append_assoc, idxRange]

/-- Running bare token fragments extends the open group in place without
recording any index. -/
theorem runFrags_plains :
    ∀ ts : List (List Char), (∀ t ∈ ts, goodTok t = true) →
    ∀ (H : List (List (List Char))) (pre : List (List Char)) (I : List Nat),
      runFrags ⟨H ++ [pre], I, some H.length⟩ ts =
        some ⟨H ++ [pre ++ ts], I, some H.length⟩ := by
  intro ts
  induction ts with
  | nil => intro _ H pre I; simp [runFrags_nil]
  | cons t ts2 ih =>
    intro hgood H pre I
    rw [runFrags_cons,
        parseStep_plain (hgood t (List.mem_cons_self t ts2)) (H ++ [pre]) I H.length,
        listModify_append_length]
    show runFrags ⟨H ++ [pre ++ [t]], I, some H.length⟩ ts2 = _
    rw [ih (fun u hu => hgood u (List.mem_cons_of_mem t hu)) H (pre ++ [t]) I]
    simp [List.append_assoc]

/-- Running a group that opens but never closes stores its tokens in the heap
without ever recording the group. -/
theorem runFrags_openGroup {u : List Char} (hu : goodTok u = true)
    {us : List (List Char)} (hus : ∀ t ∈ us, goodTok t = true)
    (H : List (List (List Char))) (I : List Nat) (n : Option Nat) :
    runFrags ⟨H, I, n⟩ (('[' :: u) :: us) =
      some ⟨H ++ [u :: us], I, some H.length⟩ := by
  rw [runFrags_cons, parseStep_open hu H I n]
  show runFrags ⟨H ++ [[u]], I, some H.length⟩ us = _
  rw [runFrags_plains us hus H [u] I]
  rfl

/-- A string is rebuilt from its character list. -/
theorem String_mk_data (s : String) : String.mk s.data = s := rfl

/-- Round trip through character lists on one group. -/
theorem map_mk_data (g : List String) : (g.map String.data).map String.mk = g := by
  induction g with
  | nil => rfl
  | cons t ts ih => rw [List.map_cons, List.map_cons, String_mk_data, ih]

/-- Round trip through character lists on a role list. -/
theorem map_mk_map_data (rl : List (List String)) :
    (rl.map (List.map String.data)).map (List.map String.mk) = rl := by
  induction rl with
  | nil => rfl
  | cons g rest ih => rw [List.map_cons, List.map_cons, map_mk_data, ih]

/-- Extracting consecutive heap indices as strings recovers the stored
groups. -/
theorem map_extract_idxRange :
    ∀ (gs H t : List (List (List Char))),
      (idxRange H.length gs.length).map
        (fun i => ((H ++ (gs ++ t)).getD i []).map String.mk) =
      gs.map (List.map String.mk) := by
  intro gs
  induction gs with
  | nil => intro H t; rfl
  | cons g gs2 ih =>
    intro H t
    rw [show (g :: gs2).length = gs2.length + 1 from rfl,
        show idxRange H.length (gs2.length + 1) =
          H.length :: idxRange (H.length + 1) gs2.length from rfl,
        List.map_cons, List.map_cons]
    congr 1
    · exact congrArg (List.map String.mk) (getD_append_cons H g (gs2 ++ t) [])
    · simpa [List.append_assoc] using ih (H ++ [g]) t

/-- An opening bracket distributes out of a joined fragment list. -/
theorem joinSep_cons_bracket (sep x : List Char) (ys : List (List Char)) :
    joinSep sep (('[' :: x) :: ys) = '[' :: joinSep sep (x :: ys) := by
  cases ys with
  | nil => rfl
  | cons y ys2 => rfl

/-- A non-empty string role list converts to a non-empty character role
list. -/
theorem crl_ne_nil {rl : List (List String)} (h : rl ≠ []) :
    rl.map (List.map String.data) ≠ [] := by
  simpa using h

/-- Non-empty groups convert to non-empty character groups. -/
theorem crl_groups_ne_nil {rl : List (List String)} (h : ∀ g ∈ rl, g ≠ []) :
    ∀ g ∈ rl.map (List.map String.data), g ≠ [] := by
  intro g hg
  rw [List.mem_map] at hg
  obtain ⟨g0, hg0, rfl⟩ := hg
  simpa using h g0 hg0

/-- Good string tokens convert to good character tokens. -/
theorem crl_goodTok {rl : List (List String)}
    (h : ∀ g ∈ rl, ∀ t ∈ g, goodTok t.data = true) :
    ∀ g ∈ rl.map (List.map String.data), ∀ t ∈ g, goodTok t = true := by
  intro g hg t ht
  rw [List.mem_map] at hg
  obtain ⟨g0, hg0, rfl⟩ := hg
  rw [List.mem_map] at ht
  obtain ⟨t0, ht0, rfl⟩ := ht
  exact h g0 hg0 t0 ht0

/-- Core round trip: parsing the whitespace-padded render of a non-empty
role list with non-empty groups and good tokens returns the role list. -/
theorem parse_renderSep_core (rl : List (List String)) (pa pb : List Char)
    (hpa : ∀ c ∈ pa, isWS c = true) (hpb : ∀ c ∈ pb, isWS c = true)
    (h0 : rl ≠ []) (h1 : ∀ g ∈ rl, g ≠ [])
    (h2 : ∀ g ∈ rl, ∀ t ∈ g, goodTok t.data = true) :
    _parse_roles (String.mk (renderSep pa pb (rl.map (List.map String.data)))) =
      some rl := by
  have hc0 := crl_ne_nil h0
  have hc1 := crl_groups_ne_nil h1
  have hc2 := crl_goodTok h2
  have hfne := fragsOf_ne_nil hc0 hc1
  have hfgood := fragsOf_good hc2
  have hmap : (splitComma (joinSep (pa ++ ',' :: pb)
        (fragsOf (rl.map (List.map String.data))))).map strip =
      (fragsOf (rl.map (List.map String.data))).map strip := by
    rw [map_strip_splitComma_joinSep hpa hpb _ hfne hfgood,
        map_strip_of_goodFrag hfgood]
  obtain ⟨n2, hrun⟩ := runFrags_fragsOf (rl.map (List.map String.data))
    hc1 hc2 [] [] none
  unfold _parse_roles
  rw [String_data_mk, renderSep_eq_joinSep_fragsOf pa pb _ hc0 hc1,
      runFrags_congr hmap ⟨[], [], none⟩, hrun]
  have hex := map_extract_idxRange (rl.map (List.map String.data)) [] []
  simp only [List.length_nil, List.nil_append, List.append_nil] at hex
  simp only [Option.map_some', List.nil_append, List.length_nil, Option.some.injEq]
  rw [hex, map_mk_map_data]

/-- C8 counterexample: a role list whose tokens are non-empty and free of
the structural characters, but where one token has leading whitespace, does
not survive the render-parse round trip. -/
theorem render_parse_counterexample :
    renderRoles [["a", " b"]] = "[a, b]" ∧
    _parse_roles (renderRoles [["a", " b"]]) = some [["a", "b"]] ∧
    some [["a", "b"]] ≠ some [["a", " b"]] := by decide

/-- C8 amended: parsing is a left-inverse of the canonical renderer for every
non-empty RoleList whose node groups are non-empty and whose role tokens are
non-empty, contain none of the characters `[`, `]`, `,`, and carry no leading
or trailing whitespace. -/
theorem parse_left_inverse_of_render (rl : List (List String)) (h0 : rl ≠ [])
    (h1 : ∀ g ∈ rl, g ≠ []) (h2 : ∀ g ∈ rl, ∀ t ∈ g, goodTok t.data = true) :
    _parse_roles (renderRoles rl) = some rl := by
  unfold renderRoles
  exact parse_renderSep_core rl [] [] (by simp) (by simp) h0 h1 h2

theorem parse_left_inverse_of_render_witness :
    ([["admin", "mon", "mgr"], ["storage", "mon", "mgr", "mds"]] :
        List (List String)) ≠ [] ∧
    (∀ g ∈ ([["admin", "mon", "mgr"], ["storage", "mon", "mgr", "mds"]] :
        List (List String)), ∀ t ∈ g, goodTok t.data = true) ∧
    _parse_roles (renderRoles [["admin", "mon", "mgr"],
        ["storage", "mon", "mgr", "mds"]]) =
      some [["admin", "mon", "mgr"], ["storage", "mon", "mgr", "mds"]] :=
  ⟨by decide, by decide,
    parse_left_inverse_of_render _ (by decide) (by decide) (by decide)⟩

/-- C7 amended: the parser trims whitespace only at comma boundaries.  Any
whitespace padding put before or after the separating commas of a rendered
role list is insignificant; the counterexample shows that whitespace sitting
directly inside a bracket is preserved in the adjacent token instead. -/
theorem comma_whitespace_insignificant (rl : List (List String)) (pa pb : List Char)
    (hpa : ∀ c ∈ pa, isWS c = true) (hpb : ∀ c ∈ pb, isWS c = true)
    (h0 : rl ≠ []) (h1 : ∀ g ∈ rl, g ≠ [])
    (h2 : ∀ g ∈ rl, ∀ t ∈ g, goodTok t.data = true) :
    _parse_roles (String.mk (renderSep pa pb (rl.map (List.map String.data)))) =
      some rl :=
  parse_renderSep_core rl pa pb hpa hpb h0 h1 h2

theorem comma_whitespace_insignificant_witness :
    (∀ c ∈ [' '], isWS c = true) ∧
    String.mk (renderSep [' '] [' ']
      ([["admin", "mon"], ["storage"]].map (List.map String.data))) =
      "[admin , mon] , [storage]" ∧
    _parse_roles (String.mk (renderSep [' '] [' ']
      ([["admin", "mon"], ["storage"]].map (List.map String.data)))) =
      some [["admin", "mon"], ["storage"]] :=
  ⟨by decide, by decide,
    comma_whitespace_insignificant [["admin", "mon"], ["storage"]] [' '] [' ']
      (by decide) (by decide) (by decide) (by decide) (by decide)⟩

/-- C1 amended: on text made of zero or more well-formed bracket groups
followed by a group that is opened but never closed, the parser raises no
error at all; it returns only the complete groups, silently dropping every
role of the unterminated group. -/
theorem unterminated_tail_dropped (gs : List (List String)) (u : String)
    (us : List String) (hg1 : ∀ g ∈ gs, g ≠ [])
    (hg2 : ∀ g ∈ gs, ∀ t ∈ g, goodTok t.data = true)
    (hu : goodTok u.data = true) (hus : ∀ t ∈ us, goodTok t.data = true) :
    _parse_roles (renderWithOpenTail gs u us) = some gs := by
  have husd : ∀ t ∈ us.map String.data, goodTok t = true := by
    intro t ht
    rw [List.mem_map] at ht
    obtain ⟨t0, ht0, rfl⟩ := ht
    exact hus t0 ht0
  cases gs with
  | nil =>
    show _parse_roles
      (String.mk ('[' :: joinSep [','] (u.data :: us.map String.data))) = some []
    have hpieces : ∀ p ∈ ('[' :: u.data) :: us.map String.data, goodFrag p := by
      intro p hp
      rcases List.mem_cons.mp hp with rfl | hp2
      · exact goodFrag_open hu
      · rw [List.mem_map] at hp2
        obtain ⟨t0, ht0, rfl⟩ := hp2
        exact goodFrag_plain (hus t0 ht0)
    have hmap : (splitComma (joinSep [',']
          (('[' :: u.data) :: us.map String.data))).map strip =
        (('[' :: u.data) :: us.map String.data).map strip := by
      have hh := @map_strip_splitComma_joinSep [] [] (by simp) (by simp)
        (('[' :: u.data) :: us.map String.data) (List.cons_ne_nil _ _) hpieces
      simp only [List.nil_append] at hh
      rw [hh, map_strip_of_goodFrag hpieces]
    unfold _parse_roles
    rw [String_data_mk, ← joinSep_cons_bracket [','] u.data (us.map String.data),
        runFrags_congr hmap ⟨[], [], none⟩, runFrags_openGroup hu husd [] [] none]
    rfl
  | cons g rest =>
    show _parse_roles (String.mk
      (renderSep [] [] ((g :: rest).map (List.map String.data)) ++
        ',' :: ('[' :: joinSep [','] (u.data :: us.map String.data)))) =
      some (g :: rest)
    have hc0 : (g :: rest).map (List.map String.data) ≠ [] :=
      crl_ne_nil (List.cons_ne_nil g rest)
    have hc1 := crl_groups_ne_nil hg1
    have hc2 := crl_goodTok hg2
    have hfne := fragsOf_ne_nil hc0 hc1
    have hpieces : ∀ p ∈ fragsOf ((g :: rest).map (List.map String.data)) ++
        ('[' :: u.data) :: us.map String.data, goodFrag p := by
      intro p hp
      rcases List.mem_append.mp hp with hp2 | hp2
      · exact fragsOf_good hc2 p hp2
      · rcases List.mem_cons.mp hp2 with rfl | hp3
        · exact goodFrag_open hu
        · rw [List.mem_map] at hp3
          obtain ⟨t0, ht0, rfl⟩ := hp3
          exact goodFrag_plain (hus t0 ht0)
    have hrs := renderSep_eq_joinSep_fragsOf [] []
      ((g :: rest).map (List.map String.data)) hc0 hc1
    simp only [List.nil_append] at hrs
    have htext : joinSep [',']
        (fragsOf ((g :: rest).map (List.map String.data)) ++
          ('[' :: u.data) :: us.map String.data) =
        renderSep [] [] ((g :: rest).map (List.map String.data)) ++
          ',' :: ('[' :: joinSep [','] (u.data :: us.map String.data)) := by
      rw [joinSep_append_of_ne_nil [','] hfne (List.cons_ne_nil _ _),
          joinSep_cons_bracket [','] u.data (us.map String.data), hrs]
      simp [List.append_assoc]
    have hmap : (splitComma (joinSep [',']
          (fragsOf ((g :: rest).map (List.map String.data)) ++
            ('[' :: u.data) :: us.map String.data))).map strip =
        (fragsOf ((g :: rest).map (List.map String.data)) ++
          ('[' :: u.data) :: us.map String.data).map strip := by
      have hh := @map_strip_splitComma_joinSep [] [] (by simp) (by simp)
        (fragsOf ((g :: rest).map (List.map String.data)) ++
          ('[' :: u.data) :: us.map String.data) (by simp) hpieces
      simp only [List.nil_append] at hh
      rw [hh, map_strip_of_goodFrag hpieces]
    obtain ⟨n2, hrun⟩ := runFrags_fragsOf ((g :: rest).map (List.map String.data))
      hc1 hc2 [] [] none
    unfold _parse_roles
    rw [String_data_mk, ← htext, runFrags_congr hmap ⟨[], [], none⟩,
        runFrags_append, hrun]
    show (runFrags ⟨[] ++ (g :: rest).map (List.map String.data),
        [] ++ idxRange ([] : List (List (List Char))).length
          ((g :: rest).map (List.map String.data)).length, n2⟩
        (('[' :: u.data) :: us.map String.data)).map _ = _
    rw [runFrags_openGroup hu husd _ _ n2]
    have hex := map_extract_idxRange ((g :: rest).map (List.map String.data))
      [] [u.data :: us.map String.data]
    simp only [List.length_nil, List.nil_append, List.append_nil] at hex
    simp only [Option.map_some', List.nil_append, List.length_nil, Option.some.injEq]
    rw [hex, map_mk_map_data]

theorem unterminated_tail_dropped_witness :
    goodTok ("admin".data) = true ∧
    renderWithOpenTail [] "admin" ["mon"] = "[admin,mon" ∧
    _parse_roles (renderWithOpenTail [] "admin" ["mon"]) = some [] :=
  ⟨by decide, by decide,
    unterminated_tail_dropped [] "admin" ["mon"] (by decide) (by decide)
      (by decide) (by decide)⟩

/-- Field-wise characterisation of a successful settings derivation. -/
theorem gen_fields {version roles os : Option String} {num_disks : Option Int}
    {single_node : Bool}
    {libvirt_host libvirt_user libvirt_storage_pool : Option String}
    {deepsea_cli : Option Bool} {stop_before_deepsea_stage : Option Int}
    {deepsea_repo deepsea_branch : Option String} {repo : Option (List String)}
    {cpus ram disk_size : Option Int} {vagrant_box : Option String}
    {d : SettingsDict}
    (h : _gen_settings_dict version roles os num_disks single_node libvirt_host
      libvirt_user libvirt_storage_pool deepsea_cli stop_before_deepsea_stage
      deepsea_repo deepsea_branch repo cpus ram disk_size vagrant_box = some d) :
    roles_field roles single_node = some d.roles ∧
    d.os = (if truthyStr os then os else none) ∧
    d.num_disks = num_disks_field num_disks single_node ∧
    d.cpus = (if truthyInt cpus then cpus else none) ∧
    d.ram = (if truthyInt ram then ram else none) ∧
    d.disk_size = (if truthyInt disk_size then disk_size else none) ∧
    d.libvirt_host = (if truthyStr libvirt_host then libvirt_host else none) ∧
    d.libvirt_user = (if truthyStr libvirt_user then libvirt_user else none) ∧
    d.libvirt_storage_pool =
      (if truthyStr libvirt_storage_pool then libvirt_storage_pool else none) ∧
    d.use_deepsea_cli = deepsea_cli ∧
    d.stop_before_stage = stop_before_deepsea_stage ∧
    d.deepsea_git_repo = (if truthyStr deepsea_repo then deepsea_repo else none) ∧
    d.deepsea_git_branch =
      (if truthyStr deepsea_branch then deepsea_branch else none) ∧
    d.version = version ∧
    d.repos = (if truthyList repo then repo else none) ∧
    d.vagrant_box = (if truthyStr vagrant_box then vagrant_box else none) := by
  unfold _gen_settings_dict at h
  rcases hrf : roles_field roles single_node with _ | rf
  · rw [hrf] at h
    simp at h
  · rw [hrf] at h
    simp only [Option.some.injEq] at h
    subst h
    refine ⟨?_, rfl, rfl, rfl, rfl, rfl, rfl, rfl, rfl, rfl, rfl, rfl, rfl,
      rfl, rfl, rfl⟩
    rfl

/-- Single-node mode always installs the fixed role list. -/
theorem roles_field_single (roles : Option String) :
    roles_field roles true = some (some singleNodeRoles) := rfl

/-- With single-node off and a non-empty role text, the roles entry is
whatever the parser produces. -/
theorem roles_field_parse {s : String} (hs : s ≠ "") :
    roles_field (some s) false =
      match _parse_roles s with
      | none => none
      | some rl => some (some rl) := by
  have hc : (!false && truthyStr (some s)) = true := by
    simp [truthyStr, hs]
  unfold roles_field
  rw [if_pos hc]
  rfl

/-- With single-node off and no (or an empty) role text, no roles key is
emitted. -/
theorem roles_field_absent {roles : Option String}
    (h : roles = none ∨ roles = some "") : roles_field roles false = some none := by
  rcases h with rfl | rfl <;> rfl

/-- Emission of a truthiness-gated optional string key tracks truthiness. -/
theorem isSome_gate_str (o : Option String) :
    (if truthyStr o then o else none).isSome = truthyStr o := by
  cases o with
  | none => rfl
  | some s => cases htr : truthyStr (some s) <;> simp [htr]

/-- Emission of a truthiness-gated optional integer key tracks truthiness. -/
theorem isSome_gate_int (o : Option Int) :
    (if truthyInt o then o else none).isSome = truthyInt o := by
  cases o with
  | none => rfl
  | some n => cases htr : truthyInt (some n) <;> simp [htr]

/-- Emission of the truthiness-gated repo list key tracks truthiness. -/
theorem isSome_gate_list (o : Option (List String)) :
    (if truthyList o then o else none).isSome = truthyList o := by
  cases o with
  | none => rfl
  | some l => cases htr : truthyList (some l) <;> simp [htr]

/-- C4: settings derivation enforces a disk-count floor of 3 in single-node
mode: no explicit disk count yields 3; an explicit 2 is raised to 3; an
explicit 5 stays 5; and with single-node off and no explicit count, no
`num_disks` key is emitted. -/
theorem num_disks_floor (version roles os : Option String)
    (libvirt_host libvirt_user libvirt_storage_pool : Option String)
    (deepsea_cli : Option Bool) (stop_before_deepsea_stage : Option Int)
    (deepsea_repo deepsea_branch : Option String) (repo : Option (List String))
    (cpus ram disk_size : Option Int) (vagrant_box : Option String) :
    (∀ d, _gen_settings_dict version roles os none true libvirt_host
      libvirt_user libvirt_storage_pool deepsea_cli stop_before_deepsea_stage
      deepsea_repo deepsea_branch repo cpus ram disk_size vagrant_box = some d →
        d.num_disks = some 3) ∧
    (∀ d, _gen_settings_dict version roles os (some 2) true libvirt_host
      libvirt_user libvirt_storage_pool deepsea_cli stop_before_deepsea_stage
      deepsea_repo deepsea_branch repo cpus ram disk_size vagrant_box = some d →
        d.num_disks = some 3) ∧
    (∀ d, _gen_settings_dict version roles os (some 5) true libvirt_host
      libvirt_user libvirt_storage_pool deepsea_cli stop_before_deepsea_stage
      deepsea_repo deepsea_branch repo cpus ram disk_size vagrant_box = some d →
        d.num_disks = some 5) ∧
    (∀ d, _gen_settings_dict version roles os none false libvirt_host
      libvirt_user libvirt_storage_pool deepsea_cli stop_before_deepsea_stage
      deepsea_repo deepsea_branch repo cpus ram disk_size vagrant_box = some d →
        d.num_disks = none) := by
  refine ⟨?_, ?_, ?_, ?_⟩ <;> intro d h <;> rw [(gen_fields h).2.2.1] <;> decide

theorem num_disks_floor_witness :
    ∃ d, _gen_settings_dict none none none none true none none none none none
      none none none none none none none = some d ∧ d.num_disks = some 3 :=
  ⟨⟨some singleNodeRoles, none, some 3, none, none, none, none, none, none,
    none, none, none, none, none, none, none⟩, rfl,
   (num_disks_floor none none none none none none none none none none none
     none none none none).1 _ rfl⟩

/-- C5: with single-node mode the roles entry is replaced by the fixed
exhaustive single-node role set regardless of the roles text; with
single-node off and a non-empty roles text the roles entry is the parse of
that text; with single-node off and no (or empty, hence falsy) roles text,
no roles key is emitted. -/
theorem roles_entry_derivation (version os : Option String)
    (num_disks : Option Int)
    (libvirt_host libvirt_user libvirt_storage_pool : Option String)
    (deepsea_cli : Option Bool) (stop_before_deepsea_stage : Option Int)
    (deepsea_repo deepsea_branch : Option String) (repo : Option (List String))
    (cpus ram disk_size : Option Int) (vagrant_box : Option String) :
    (∀ roles d, _gen_settings_dict version roles os num_disks true libvirt_host
      libvirt_user libvirt_storage_pool deepsea_cli stop_before_deepsea_stage
      deepsea_repo deepsea_branch repo cpus ram disk_size vagrant_box = some d →
        d.roles = some singleNodeRoles) ∧
    (∀ s rl d, s ≠ "" → _parse_roles s = some rl →
      _gen_settings_dict version (some s) os num_disks false libvirt_host
      libvirt_user libvirt_storage_pool deepsea_cli stop_before_deepsea_stage
      deepsea_repo deepsea_branch repo cpus ram disk_size vagrant_box = some d →
        d.roles = some rl) ∧
    (∀ roles d, roles = none ∨ roles = some "" →
      _gen_settings_dict version roles os num_disks false libvirt_host
      libvirt_user libvirt_storage_pool deepsea_cli stop_before_deepsea_stage
      deepsea_repo deepsea_branch repo cpus ram disk_size vagrant_box = some d →
        d.roles = none) := by
  refine ⟨?_, ?_, ?_⟩
  · intro roles d h
    have h1 := (gen_fields h).1
    rw [roles_field_single roles] at h1
    exact (Option.some.inj h1).symm
  · intro s rl d hs hp h
    have h1 := (gen_fields h).1
    rw [roles_field_parse hs, hp] at h1
    exact (Option.some.inj h1).symm
  · intro roles d hr h
    have h1 := (gen_fields h).1
    rw [roles_field_absent hr] at h1
    exact (Option.some.inj h1).symm

theorem roles_entry_derivation_witness :
    "[a, b],[c]" ≠ "" ∧
    _parse_roles "[a, b],[c]" = some [["a", "b"], ["c"]] ∧
    (∃ d, _gen_settings_dict none (some "[a, b],[c]") none none false none none
      none none none none none none none none none none = some d ∧
      d.roles = some [["a", "b"], ["c"]]) :=
  ⟨by decide, by decide,
   ⟨⟨some [["a", "b"], ["c"]], none, none, none, none, none, none, none, none,
     none, none, none, none, none, none, none⟩, by decide,
    (roles_entry_derivation none none none none none none none none none none
      none none none none none).2.1 "[a, b],[c]" [["a", "b"], ["c"]] _
      (by decide) (by decide) (by decide)⟩⟩

/-- C6: the normalized configuration contains a key for each truthiness-gated
field exactly when the corresponding input is truthy, while the stage index
and the deepsea-cli boolean are passed through under an explicit not-unset
check, so 0 and false are still emitted. -/
theorem key_emission_gating (version roles os : Option String)
    (num_disks : Option Int) (single_node : Bool)
    (libvirt_host libvirt_user libvirt_storage_pool : Option String)
    (deepsea_cli : Option Bool) (stop_before_deepsea_stage : Option Int)
    (deepsea_repo deepsea_branch : Option String) (repo : Option (List String))
    (cpus ram disk_size : Option Int) (vagrant_box : Option String)
    (d : SettingsDict)
    (h : _gen_settings_dict version roles os num_disks single_node libvirt_host
      libvirt_user libvirt_storage_pool deepsea_cli stop_before_deepsea_stage
      deepsea_repo deepsea_branch repo cpus ram disk_size vagrant_box = some d) :
    d.os.isSome = truthyStr os ∧
    d.cpus.isSome = truthyInt cpus ∧
    d.ram.isSome = truthyInt ram ∧
    d.disk_size.isSome = truthyInt disk_size ∧
    d.libvirt_host.isSome = truthyStr libvirt_host ∧
    d.libvirt_user.isSome = truthyStr libvirt_user ∧
    d.libvirt_storage_pool.isSome = truthyStr libvirt_storage_pool ∧
    d.deepsea_git_repo.isSome = truthyStr deepsea_repo ∧
    d.deepsea_git_branch.isSome = truthyStr deepsea_branch ∧
    d.repos.isSome = truthyList repo ∧
    d.vagrant_box.isSome = truthyStr vagrant_box ∧
    d.stop_before_stage = stop_before_deepsea_stage ∧
    d.use_deepsea_cli = deepsea_cli := by
  obtain ⟨h1, h2, h3, h4, h5, h6, h7, h8, h9, h10, h11, h12, h13, h14, h15,
    h16⟩ := gen_fields h
  refine ⟨?_, ?_, ?_, ?_, ?_, ?_, ?_, ?_, ?_, ?_, ?_, h11, h10⟩
  · rw [h2]; exact isSome_gate_str os
  · rw [h4]; exact isSome_gate_int cpus
  · rw [h5]; exact isSome_gate_int ram
  · rw [h6]; exact isSome_gate_int disk_size
  · rw [h7]; exact isSome_gate_str libvirt_host
  · rw [h8]; exact isSome_gate_str libvirt_user
  · rw [h9]; exact isSome_gate_str libvirt_storage_pool
  · rw [h12]; exact isSome_gate_str deepsea_repo
  · rw [h13]; exact isSome_gate_str deepsea_branch
  · rw [h15]; exact isSome_gate_list repo
  · rw [h16]; exact isSome_gate_str vagrant_box

theorem key_emission_gating_witness :
    ∃ d, _gen_settings_dict none none none none false none none none
      (some false) (some 0) none none none (some 0) none none none = some d ∧
      d.cpus = none ∧ d.stop_before_stage = some 0 ∧
      d.use_deepsea_cli = some false ∧ d.cpus.isSome = truthyInt (some 0) :=
  ⟨⟨none, none, none, none, none, none, none, none, none, some false, some 0,
    none, none, none, none, none⟩, rfl, rfl, rfl, rfl,
   (key_emission_gating none none none none false none none none (some false)
     (some 0) none none none (some 0) none none none _ rfl).2.1⟩

/-- C9 counterexample: a roles key can be emitted holding an empty list (role
text `"[a"`), and then the ses5 augmentation raises IndexError on
`settings_dict['roles'][0]` instead of appending the management role. -/
theorem ses5_empty_roles_counterexample :
    (∃ d, _gen_settings_dict (some "ses5") (some "[a") none none false none
      none none none none none none none none none none none = some d ∧
      d.roles = some []) ∧
    ses5_settings_dict (some "[a") none none false none none none none none
      none none none none none none none = none :=
  ⟨⟨⟨some [], none, none, none, none, none, none, none, none, none, none,
     none, none, some "ses5", none, none⟩, by decide, by decide⟩, by decide⟩

/-- C9 amended: for the ses5 command, if settings derivation emitted no roles
key the augmentation is a no-op; if it emitted a roles list with a first
node, `"openattic"` is appended to that first node's role set; if it emitted
an empty roles list, the augmentation fails with IndexError. -/
theorem ses5_openattic_augmentation (roles os : Option String)
    (num_disks : Option Int) (single_node : Bool)
    (libvirt_host libvirt_user libvirt_storage_pool : Option String)
    (deepsea_cli : Option Bool) (stop_before_deepsea_stage : Option Int)
    (deepsea_repo deepsea_branch : Option String) (repo : Option (List String))
    (cpus ram disk_size : Option Int) (vagrant_box : Option String)
    (d : SettingsDict)
    (h : _gen_settings_dict (some "ses5") roles os num_disks single_node
      libvirt_host libvirt_user libvirt_storage_pool deepsea_cli
      stop_before_deepsea_stage deepsea_repo deepsea_branch repo cpus ram
      disk_size vagrant_box = some d) :
    (d.roles = none → ses5_settings_dict roles os num_disks single_node
      libvirt_host libvirt_user libvirt_storage_pool deepsea_cli
      stop_before_deepsea_stage deepsea_repo deepsea_branch repo cpus ram
      disk_size vagrant_box = some d) ∧
    (∀ g gs, d.roles = some (g :: gs) →
      ses5_settings_dict roles os num_disks single_node libvirt_host
        libvirt_user libvirt_storage_pool deepsea_cli stop_before_deepsea_stage
        deepsea_repo deepsea_branch repo cpus ram disk_size vagrant_box =
      some { d with roles := some ((g ++ ["openattic"]) :: gs) }) ∧
    (d.roles = some [] → ses5_settings_dict roles os num_disks single_node
      libvirt_host libvirt_user libvirt_storage_pool deepsea_cli
      stop_before_deepsea_stage deepsea_repo deepsea_branch repo cpus ram
      disk_size vagrant_box = none) := by
  refine ⟨?_, ?_, ?_⟩
  · intro hr
    unfold ses5_settings_dict
    rw [h]
    show (match d.roles with
      | none => some d
      | some [] => none
      | some (g :: gs) =>
          some { d with roles := some ((g ++ ["openattic"]) :: gs) }) = some d
    rw [hr]
  · intro g gs hr
    unfold ses5_settings_dict
    rw [h]
    show (match d.roles with
      | none => some d
      | some [] => none
      | some (g :: gs) =>
          some { d with roles := some ((g ++ ["openattic"]) :: gs) }) = _
    rw [hr]
  · intro hr
    unfold ses5_settings_dict
    rw [h]
    show (match d.roles with
      | none => some d
      | some [] => none
      | some (g :: gs) =>
          some { d with roles := some ((g ++ ["openattic"]) :: gs) }) = none
    rw [hr]

theorem ses5_openattic_augmentation_witness :
    ∃ d, _gen_settings_dict (some "ses5") none none none true none none none
      none none none none none none none none none = some d ∧
      d.roles = some singleNodeRoles ∧
      ses5_settings_dict none none none true none none none none none none
        none none none none none none =
      some ⟨some [["admin", "storage", "mon", "mgr", "prometheus", "grafana",
        "mds", "igw", "rgw", "ganesha", "openattic"]], none, some 3, none,
        none, none, none, none, none, none, none, none, none, some "ses5",
        none, none⟩ :=
  ⟨⟨some singleNodeRoles, none, some 3, none, none, none, none, none, none,
    none, none, none, none, some "ses5", none, none⟩, rfl, rfl,
   (ses5_openattic_augmentation none none none true none none none none none
     none none none none none none none _ rfl).2.1
     ["admin", "storage", "mon", "mgr", "prometheus", "grafana", "mds", "igw",
      "rgw", "ganesha"] [] rfl⟩

/-- The status-update step commutes with itself: folding two node states in
either order gives the same status. -/
theorem statusStep_comm (s : ClusterStatus) (a b : NodeState) :
    statusStep (statusStep s a) b = statusStep (statusStep s b) a := by
  revert s a b; decide

/-- A left fold by a self-commuting function is invariant under permutation
of the list. -/
theorem foldl_perm_of_comm {α β : Type} (f : β → α → β)
    (hf : ∀ s a b, f (f s a) b = f (f s b) a) :
    ∀ {l l' : List α}, l.Perm l' → ∀ s, l.foldl f s = l'.foldl f s := by
  intro l l' h
  induction h with
  | nil => intro s; rfl
  | cons x _h ih => intro s; simpa using ih (f s x)
  | swap x y l => intro s; simp only [List.foldl_cons]; rw [hf]
  | trans _h1 _h2 ih1 ih2 => intro s; rw [ih1, ih2]

/-- C3: the cluster status aggregation is order-independent: for a node
mapping with the admin node present (and dict keys unique, modelled by fixing
the admin entry and permuting the others), every permutation of the iteration
order over the non-admin nodes yields the same ClusterStatus under the fold
that starts from the admin node's state. -/
theorem status_order_independent (a : NodeState)
    (rest rest' : List (String × NodeState)) (hperm : rest.Perm rest') :
    _status (("admin", a) :: rest) = _status (("admin", a) :: rest') := by
  have h := foldl_perm_of_comm (fun s (p : String × NodeState) => statusStep s p.2)
    (fun s p q => statusStep_comm s p.2 q.2) hperm
  simp only [_status, dictLookup, if_pos, List.foldl_cons, Option.map_some']
  rw [h]

theorem status_order_independent_witness :
    _status [("admin", NodeState.not_deployed), ("node1", NodeState.running),
             ("node2", NodeState.stopped)] =
      _status [("admin", NodeState.not_deployed), ("node2", NodeState.stopped),
               ("node1", NodeState.running)] ∧
    _status [("admin", NodeState.not_deployed), ("node1", NodeState.running),
             ("node2", NodeState.stopped)] = some ClusterStatus.partially_deployed :=
  ⟨status_order_independent NodeState.not_deployed _ _ (List.Perm.swap _ _ _), by decide⟩

/-- C10: on every input whose first comma-separated fragment does not open a
bracket group after trimming (the empty string and bracket-less inputs
included), `_parse_roles` appends to the never-initialised accumulator and
raises an uncaught `AttributeError` (modelled by `none`) instead of returning
a role list. -/
theorem parse_attribute_error_on_unbracketed (s : String) (f : List Char)
    (fs : List (List Char)) (hsplit : splitComma s.data = f :: fs)
    (hhead : (strip f).head? ≠ some '[') : _parse_roles s = none := by
  have hstep : parseStep ⟨[], [], none⟩ f = none := by
    unfold parseStep
    rw [if_neg hhead]
    split <;> rfl
  unfold _parse_roles runFrags
  rw [hsplit]
  simp only [hstep]
  rfl

theorem parse_attribute_error_on_unbracketed_witness :
    splitComma ("admin, mon".data) = [['a','d','m','i','n'], [' ','m','o','n']] ∧
    (strip ['a','d','m','i','n']).head? ≠ some '[' ∧
    _parse_roles "admin, mon" = none :=
  ⟨by decide, by decide,
    parse_attribute_error_on_unbracketed "admin, mon" ['a','d','m','i','n']
      [[' ','m','o','n']] (by decide) (by decide)⟩

/-- C2 counterexample: parsing the empty string does not return the empty
role list; the loop body hits `_node.append` with `_node is None`. -/
theorem parse_empty_counterexample :
    ¬ _parse_roles "" = some [] := by decide

/-- C2 amended: parsing the empty string raises an uncaught `AttributeError`
(the accumulator `_node` is never initialised) instead of returning `[]`. -/
theorem parse_empty_raises : _parse_roles "" = none := by decide

/-- C1 counterexample: on the unterminated input `"[admin, mon"` the parser
raises nothing and returns a role list from which the trailing roles are
silently missing, contradicting the claimed ParseError. -/
theorem unterminated_group_counterexample :
    _parse_roles "[admin, mon" = some [] ∧
    (some [] : Option (List (List String))) ≠ none := by decide

/-- C7 counterexample: whitespace immediately after an opening bracket or
immediately before a closing bracket is not trimmed from the adjacent role
token. -/
theorem bracket_whitespace_counterexample :
    _parse_roles "[ admin]" = some [[" admin"]] ∧
    _parse_roles "[admin ]" = some [["admin "]] ∧
    " admin" ≠ "admin" ∧ "admin " ≠ "admin" := by decide

end Sesdev
